import Mathlib

/-!
# blockchain-alert: the transaction decoding and aggregation pipeline

A shallow embedding of `main.go`: the counter seed (`ExtractFunctionsFromAbi`), the two
decoders (`DecodeTransactionInputData`, `DecodeTransactionLogs`), the four loops gated on
`tx.To().Hex() == smartContractAddress` (`GetAllFunctionCalls`, `GetAllEvents`,
`GetValueOfTransactionsForSmartcontract`, `GetAllTransactions`) and the blacklist scan
(`CheckSmartcontractTxAddresses`).

Conventions of the embedding

* A Go run either returns or ends early: a runtime panic (nil dereference, slice or index out
  of range) or `log.Fatal`. Functions that can end early return `Except Abort _`.
* `map[string]int` is a finite partial function; it is embedded as `String → Option Int`.
  Go `int` is taken at 64 bits, and `++` wraps.
* What the program prints (value alerts, the blacklist alert) is returned as data.
* The node, the files and the go-ethereum helpers the program calls are inputs of the
  embedding (`Client`, `Unmarshal`, `ABI`), except `common.Address.Hex`, whose EIP-55
  rendering is embedded in full (Keccak-256 included) because every filter compares its output.
-/

namespace BlockchainAlert

/-! ## Keccak-256 (the hash behind `common.Address.Hex`) -/

/-- Rotate a 64-bit lane left by `n` bits (`0 ≤ n < 64`). -/
def rotl64 (v n : Nat) : Nat := ((v <<< n) ||| (v >>> (64 - n))) % 2 ^ 64

/-- The rotation offsets of the rho step, lane `x + 5 * y`. -/
def rhoOffsets : List Nat :=
  [0, 1, 62, 28, 27, 36, 44, 6, 55, 20, 3, 10, 43, 25, 39, 41, 45, 15, 21, 8, 18, 2, 61, 56, 14]

/-- The 24 round constants of the iota step. -/
def roundConstants : List Nat :=
  [0x0000000000000001, 0x0000000000008082, 0x800000000000808A, 0x8000000080008000,
   0x000000000000808B, 0x0000000080000001, 0x8000000080008081, 0x8000000000008009,
   0x000000000000008A, 0x0000000000000088, 0x0000000080008009, 0x000000008000000A,
   0x000000008000808B, 0x800000000000008B, 0x8000000000008089, 0x8000000000008003,
   0x8000000000008002, 0x8000000000000080, 0x000000000000800A, 0x800000008000000A,
   0x8000000080008081, 0x8000000000008080, 0x0000000080000001, 0x8000000080008008]

/-- Lane `i` of a state of 25 lanes. -/
def lane (a : List Nat) (i : Nat) : Nat := a.getD i 0

/-- One round of Keccak-f[1600]: theta, rho and pi, chi, iota. -/
def keccakRound (a : List Nat) (rc : Nat) : List Nat :=
  let c := (List.range 5).map fun x =>
    lane a x ^^^ lane a (x + 5) ^^^ lane a (x + 10) ^^^ lane a (x + 15) ^^^ lane a (x + 20)
  let d := (List.range 5).map fun x => lane c ((x + 4) % 5) ^^^ rotl64 (lane c ((x + 1) % 5)) 1
  let t := (List.range 25).map fun i => lane a i ^^^ lane d (i % 5)
  let b := (List.range 25).map fun i =>
    let src := (i % 5 + 3 * (i / 5)) % 5 + 5 * (i % 5)
    rotl64 (lane t src) (lane rhoOffsets src)
  let e := (List.range 25).map fun i =>
    lane b i ^^^ ((lane b ((i % 5 + 1) % 5 + 5 * (i / 5)) ^^^ (2 ^ 64 - 1)) &&&
      lane b ((i % 5 + 2) % 5 + 5 * (i / 5)))
  e.modifyHead (· ^^^ rc)

/-- The permutation Keccak-f[1600]. -/
def keccakF (a : List Nat) : List Nat := roundConstants.foldl keccakRound a

/-- Little-endian value of a byte string. -/
def leBytesToNat : List Nat → Nat
  | [] => 0
  | b :: bs => b + 256 * leBytesToNat bs

/-- The first `n` 8-byte chunks of a byte string. -/
def chunk8 : Nat → List Nat → List (List Nat)
  | 0, _ => []
  | n + 1, bs => bs.take 8 :: chunk8 n (bs.drop 8)

/-- Keccak-256 (legacy padding `0x01 … 0x80`, rate 136 bytes) of a message shorter than one
block, which is all `Address.Hex` ever hashes (40 bytes). -/
def keccak256 (msg : List Nat) : List Nat :=
  let padded := (msg ++ [1] ++ List.replicate (134 - msg.length) 0 ++ [0]).modifyLast (· ||| 0x80)
  let block := (chunk8 17 padded).map leBytesToNat ++ List.replicate 8 0
  let out := keccakF block
  (out.take 4).flatMap fun w => (List.range 8).map fun i => (w >>> (8 * i)) % 256

/-! ## `common.Address` and its `Hex` rendering -/

/-- A `common.Address`: 20 bytes, read as a big-endian number. -/
abbrev Address := Fin (2 ^ 160)

/-- A `common.Hash`: 32 bytes, read as a big-endian number. -/
abbrev Hash := Fin (2 ^ 256)

/-- A byte. -/
abbrev Byte := Fin 256

/-- The 40 hexadecimal digits of an address, most significant first. -/
def Address.nibbles (a : Address) : List Nat :=
  (List.range 40).map fun i => (a.val >>> (4 * (39 - i))) % 16

/-- The lower-case hexadecimal digit of a nibble. -/
def hexChar (n : Nat) : Char :=
  if n < 10 then Char.ofNat (48 + n) else Char.ofNat (87 + n)

/-- The `buf[i] -= 32` of go-ethereum's `checksumHex`: digit `c` at position `i` becomes upper
case when it is a letter and nibble `i` of the hash is above 7. -/
def checksumChar (hash : List Nat) (i : Nat) (c : Char) : Char :=
  let hashByte := hash.getD (i / 2) 0
  let h := if i % 2 = 0 then hashByte >>> 4 else hashByte &&& 0xf
  if c > '9' ∧ h > 7 then Char.ofNat (c.toNat - 32) else c

/-- The characters of `checksumChar` applied along a digit string, starting at position `i`. -/
def checksumFrom (hash : List Nat) : Nat → List Char → List Char
  | _, [] => []
  | i, c :: cs => checksumChar hash i c :: checksumFrom hash (i + 1) cs

/-- Lower-case digits of an address (go-ethereum `Address.hex`, without the leading `0x`). -/
def Address.lowerDigits (a : Address) : List Char := a.nibbles.map hexChar

/-- The library call `common.Address.Hex`: the EIP-55 mixed-case rendering `0x…` of an address:
the lower-case digits, each letter raised when the matching nibble of the Keccak-256 hash of
the 40 lower-case digits is above 7. -/
def Address.Hex (a : Address) : String :=
  String.mk ('0' :: 'x' ::
    checksumFrom (keccak256 (a.lowerDigits.map Char.toNat)) 0 a.lowerDigits)

/-! ## Outcomes, counters -/

/-- How a run ends before its function returns. -/
inductive Abort
  /-- Runtime panic: nil pointer dereference (`tx.To().Hex()` on a nil `To`, `method.Name` on a
  nil `method`). -/
  | nilDereference
  /-- Runtime panic: slice bounds out of range (`data[:4]`). -/
  | sliceBounds
  /-- Runtime panic: index out of range (`vLog.Topics[0]`). -/
  | indexRange
  /-- Runtime panic: assignment to entry in nil map. -/
  | nilMap
  /-- The process exits through `log.Fatal`. -/
  | fatal
  deriving DecidableEq, Repr

/-- A non-nil `map[string]int`: the count stored under each key, `none` for an absent key. -/
abbrev Counter := String → Option Int

/-- A Go `int` (64 bits, two's complement): the value an arithmetic result wraps to. -/
def wrapInt (v : Int) : Int := (v + 2 ^ 63) % 2 ^ 64 - 2 ^ 63

/-- The map `make(map[string]int)` returns. -/
def Counter.empty : Counter := fun _ => none

/-- The assignment `m[k] = v`. -/
def Counter.set (m : Counter) (k : String) (v : Int) : Counter :=
  fun j => if j = k then some v else m j

/-- The statement `m[k]++` on a non-nil map: an absent key reads as 0 and is stored as 1. -/
def Counter.incr (m : Counter) (k : String) : Counter :=
  fun j => if j = k then some (wrapInt ((m k).getD 0 + 1)) else m j

/-- The statement `counter[name]++` of both decoders, on a map that may be nil (`none`). -/
def increment (counter : Option Counter) (name : String) : Except Abort (Option Counter) :=
  match counter with
  | none => .error .nilMap
  | some m => .ok (some (m.incr name))

/-! ## ABI description and the counter seed -/

/-- A value `json.Unmarshal` stores in an `interface{}`. An object is its list of fields, read
with `List.lookup`. -/
inductive Json
  | null
  | bool (b : Bool)
  | number (text : String)
  | string (s : String)
  | array (items : List Json)
  | object (fields : List (String × Json))

/-- The two type assertions of the loop body, `fn, ok := item.(map[string]interface{})` and
`name, ok := fn["name"].(string)`: the name of an entry that is an object with a string-valued
`name`, nothing (`ok` false) otherwise. -/
def Json.entryName : Json → Option String
  | .object fn =>
    match fn.lookup "name" with
    | some (.string name) => some name
    | _ => none
  | _ => none

/-- The body of the `for _, item := range abi` loop of `ExtractFunctionsFromAbi`. -/
def ExtractFunctionsFromAbi.body (functionNames : Counter) (item : Json) : Counter :=
  match item.entryName with
  | some name => functionNames.set name 0
  | none => functionNames

/-- The function `ExtractFunctionsFromAbi`. `Unmarshal` is `json.Unmarshal` into an `Abi`
(`[]interface{}`): the entries of the array, `none` on error. The result is `none` for the
nil map returned on a parse error. -/
def ExtractFunctionsFromAbi (Unmarshal : String → Option (List Json)) (abiJson : String) :
    Option Counter :=
  match Unmarshal abiJson with
  | none => none
  | some abi => some (abi.foldl ExtractFunctionsFromAbi.body Counter.empty)

/-! ## The go-ethereum records the pipeline reads -/

/-- An `abi.Method`, as far as the program reads it. -/
structure Method where
  /-- The field `Name`. -/
  Name : String
  /-- The field `ID`, the 4-byte selector. -/
  ID : List Byte

/-- An `abi.Event`, as far as the program reads it. -/
structure Event where
  /-- The field `Name`. -/
  Name : String
  /-- The field `ID`, the topic hash. -/
  ID : Hash

/-- An `abi.ABI`. Go keeps `Methods` and `Events` in maps and looks an ID up by ranging over
them; the lists fix one such order (immaterial when IDs are pairwise distinct). -/
structure ABI where
  /-- The methods. -/
  Methods : List Method
  /-- The events. -/
  Events : List Event

/-- The library call `abi.MethodById`: an error (`none`) for fewer than 4 bytes or when no
method has the ID `sigdata[:4]`. -/
def ABI.MethodById (abi : ABI) (sigdata : List Byte) : Option Method :=
  if sigdata.length < 4 then none
  else abi.Methods.find? fun method => method.ID == sigdata.take 4

/-- The library call `abi.EventByID`: an error (`none`) when no event has the topic as ID. -/
def ABI.EventByID (abi : ABI) (topic : Hash) : Option Event :=
  abi.Events.find? fun event => event.ID == topic

/-- A `types.Transaction`, as far as the program reads it. -/
structure Transaction where
  /-- The getter `To()`: `none` is the nil pointer of a contract creation. -/
  To : Option Address
  /-- The getter `Data()`, a fresh copy whose capacity is its length. -/
  Data : List Byte
  /-- The getter `Value()`. -/
  Value : Nat
  /-- What `types.NewLondonSigner(31337).Sender(tx)` recovers, `none` when it returns an
  error. -/
  Sender : Option Address

/-- A `types.Log`, as far as the program reads it. -/
structure Log where
  /-- The field `Topics`. -/
  Topics : List Hash

/-- A `types.Receipt`, as far as the program reads it. -/
structure Receipt where
  /-- The field `Status`. -/
  Status : Nat
  /-- The field `Logs`. -/
  Logs : List Log

/-- The node behind `ethclient.Client`: `none` is a call that returns an error. -/
structure Client where
  /-- The call `client.TransactionByHash`. -/
  TransactionByHash : Hash → Option Transaction
  /-- The call `client.TransactionReceipt`. -/
  TransactionReceipt : Hash → Option Receipt

/-- An entry of `resources/blacklistAddresses.json`. -/
structure BlacklistAddress where
  /-- The field `address`. -/
  Address : String
  /-- The field `comment`. -/
  Comment : String
  /-- The field `date`. -/
  Date : String

/-- Everything a run reads from outside the program. -/
structure World where
  /-- The call `json.Unmarshal([]byte(s), &abi)` with `abi : Abi`. -/
  Unmarshal : String → Option (List Json)
  /-- The call `abi.JSON(strings.NewReader(s))`. -/
  abiJSON : String → Option ABI
  /-- The function `getTransactionHashesForBlock`, each hash through `common.HexToHash`. -/
  getTransactionHashesForBlock : String → Option (List Hash)
  /-- The call `ethclient.Dial(os.Getenv("NODE_URL"))`. -/
  Dial : Option Client
  /-- The file `resources/blacklistAddresses.json`: `none` when `os.Open` fails, `some none`
  when its content does not unmarshal into `[]BlacklistAddress`. -/
  blacklistFile : Option (Option (List BlacklistAddress))

/-! ## Decoders -/

/-- The function `DecodeTransactionInputData`. `data[:4]` panics on fewer than 4 bytes; the
error of `MethodById` is dropped and `method.Name` then dereferences nil. -/
def DecodeTransactionInputData (contractABI : ABI) (data : List Byte)
    (methodCounter : Option Counter) : Except Abort (Option Counter) :=
  if data.length < 4 then .error .sliceBounds
  else
    match contractABI.MethodById (data.take 4) with
    | none => .error .nilDereference
    | some method => increment methodCounter method.Name

/-- The `for _, vLog := range receipt.Logs` loop of `DecodeTransactionLogs`. -/
def DecodeTransactionLogs.loop (contractABI : ABI) :
    List Log → Option Counter → Except Abort (Option Counter)
  | [], eventCounter => .ok eventCounter
  | vLog :: rest, eventCounter =>
    match vLog.Topics with
    | [] => .error .indexRange
    | topic :: _ =>
      match contractABI.EventByID topic with
      | none => .error .fatal
      | some event =>
        match increment eventCounter event.Name with
        | .error e => .error e
        | .ok eventCounter => DecodeTransactionLogs.loop contractABI rest eventCounter

/-- The function `DecodeTransactionLogs`. -/
def DecodeTransactionLogs (receipt : Receipt) (contractABI : ABI)
    (eventCounter : Option Counter) : Except Abort (Option Counter) :=
  DecodeTransactionLogs.loop contractABI receipt.Logs eventCounter

/-- The function `GetTransactionReceipt`. -/
def GetTransactionReceipt (client : Client) (txHash : Hash) : Except Abort Receipt :=
  match client.TransactionReceipt txHash with
  | none => .error .fatal
  | some receipt => .ok receipt

/-! ## The filter and the four loops gated on it -/

/-- The condition `tx.To().Hex() == smartContractAddress` of the four loops: Go string
equality on the checksum rendering; `Hex` on the nil `To` of a contract creation panics. -/
def toContract (tx : Transaction) (smartContractAddress : String) : Except Abort Bool :=
  match tx.To with
  | none => .error .nilDereference
  | some recipient => .ok (decide (recipient.Hex = smartContractAddress))

/-- The body of the loop of `GetAllFunctionCalls` for one transaction hash. -/
def GetAllFunctionCalls.body (client : Client) (myABI : ABI) (smartContractAddress : String)
    (txHash : Hash) (methodCounter : Option Counter) : Except Abort (Option Counter) :=
  match client.TransactionByHash txHash with
  | none => .error .fatal
  | some tx =>
    match toContract tx smartContractAddress with
    | .error e => .error e
    | .ok true => DecodeTransactionInputData myABI tx.Data methodCounter
    | .ok false => .ok methodCounter

/-- The loop of `GetAllFunctionCalls` over the block's transaction hashes. -/
def GetAllFunctionCalls.loop (client : Client) (myABI : ABI) (smartContractAddress : String) :
    List Hash → Option Counter → Except Abort (Option Counter)
  | [], methodCounter => .ok methodCounter
  | txHash :: rest, methodCounter =>
    match GetAllFunctionCalls.body client myABI smartContractAddress txHash methodCounter with
    | .error e => .error e
    | .ok methodCounter =>
      GetAllFunctionCalls.loop client myABI smartContractAddress rest methodCounter

/-- The function `GetAllFunctionCalls`. -/
def GetAllFunctionCalls (w : World) (smartContractAddress smartContractAbi blockNumber : String) :
    Except Abort (Option Counter) :=
  let methodCounter := ExtractFunctionsFromAbi w.Unmarshal smartContractAbi
  match w.getTransactionHashesForBlock blockNumber with
  | none => .error .fatal
  | some transactionHashes =>
    match w.abiJSON smartContractAbi with
    | none => .error .fatal
    | some myABI =>
      match w.Dial with
      | none => .error .fatal
      | some client =>
        GetAllFunctionCalls.loop client myABI smartContractAddress transactionHashes
          methodCounter

/-- The body of the loop of `GetAllEvents` for one transaction hash. -/
def GetAllEvents.body (client : Client) (myABI : ABI) (smartContractAddress : String)
    (txHash : Hash) (eventCounter : Option Counter) : Except Abort (Option Counter) :=
  match client.TransactionByHash txHash with
  | none => .error .fatal
  | some tx =>
    match toContract tx smartContractAddress with
    | .error e => .error e
    | .ok true =>
      match GetTransactionReceipt client txHash with
      | .error e => .error e
      | .ok receipt1 => DecodeTransactionLogs receipt1 myABI eventCounter
    | .ok false => .ok eventCounter

/-- The loop of `GetAllEvents` over the block's transaction hashes. -/
def GetAllEvents.loop (client : Client) (myABI : ABI) (smartContractAddress : String) :
    List Hash → Option Counter → Except Abort (Option Counter)
  | [], eventCounter => .ok eventCounter
  | txHash :: rest, eventCounter =>
    match GetAllEvents.body client myABI smartContractAddress txHash eventCounter with
    | .error e => .error e
    | .ok eventCounter => GetAllEvents.loop client myABI smartContractAddress rest eventCounter

/-- The function `GetAllEvents`. -/
def GetAllEvents (w : World) (smartContractAddress smartContractAbi blockNumber : String) :
    Except Abort (Option Counter) :=
  let eventCounter := ExtractFunctionsFromAbi w.Unmarshal smartContractAbi
  match w.getTransactionHashesForBlock blockNumber with
  | none => .error .fatal
  | some transactionHashes =>
    match w.abiJSON smartContractAbi with
    | none => .error .fatal
    | some myABI =>
      match w.Dial with
      | none => .error .fatal
      | some client =>
        GetAllEvents.loop client myABI smartContractAddress transactionHashes eventCounter

/-- The body of the loop of `GetAllTransactions` for one transaction hash: the receipts
collected so far, with the counts `failedTx` and `successfulTx`. -/
def GetAllTransactions.body (client : Client) (smartContractAddress : String) (txHash : Hash)
    (acc : List Receipt × Nat × Nat) : Except Abort (List Receipt × Nat × Nat) :=
  match client.TransactionByHash txHash with
  | none => .error .fatal
  | some tx =>
    match toContract tx smartContractAddress with
    | .error e => .error e
    | .ok true =>
      match GetTransactionReceipt client txHash with
      | .error e => .error e
      | .ok receipt1 =>
        .ok (acc.1 ++ [receipt1],
          if receipt1.Status = 0 then acc.2.1 + 1 else acc.2.1,
          if receipt1.Status = 0 then acc.2.2 else if receipt1.Status = 1 then acc.2.2 + 1
          else acc.2.2)
    | .ok false => .ok acc

/-- The loop of `GetAllTransactions` over the block's transaction hashes. -/
def GetAllTransactions.loop (client : Client) (smartContractAddress : String) :
    List Hash → List Receipt × Nat × Nat → Except Abort (List Receipt × Nat × Nat)
  | [], acc => .ok acc
  | txHash :: rest, acc =>
    match GetAllTransactions.body client smartContractAddress txHash acc with
    | .error e => .error e
    | .ok acc => GetAllTransactions.loop client smartContractAddress rest acc

/-- The function `GetAllTransactions`: the receipts of the transactions that pass the filter. -/
def GetAllTransactions (w : World) (smartContractAddress blockNumber : String) :
    Except Abort (List Receipt) :=
  match w.getTransactionHashesForBlock blockNumber with
  | none => .error .fatal
  | some transactionHashes =>
    match w.Dial with
    | none => .error .fatal
    | some client =>
      match GetAllTransactions.loop client smartContractAddress transactionHashes ([], 0, 0) with
      | .error e => .error e
      | .ok acc => .ok acc.1

/-! ## Policy checks -/

/-- The library call `x.Cmp(y)` of `math/big`: -1, 0 or 1. -/
def Cmp (x y : Int) : Int := if x < y then -1 else if x = y then 0 else 1

/-- The threshold `valueLimit` of `GetValueOfTransactionsForSmartcontract`. -/
def valueLimit : Int := 10000000000

/-- What a run of `GetValueOfTransactionsForSmartcontract` leaves behind: the hashes for which
the line `Transaction value … is greater than the Value Limit` was printed, in order, and how
the run ended (the returned `txValue`, or the abort). Lines printed before an abort stay
printed. -/
structure ValueRun where
  /-- The transaction hashes flagged so far. -/
  flagged : List Hash
  /-- The returned `txValue`, or how the run ended early. -/
  result : Except Abort String

/-- The loop of `GetValueOfTransactionsForSmartcontract` over the block's transaction hashes,
with the threshold as a parameter. -/
def GetValueOfTransactionsForSmartcontract.loop (client : Client) (smartContractAddress : String)
    (limit : Int) : List Hash → String → List Hash → ValueRun
  | [], txValue, flagged => ⟨flagged, .ok txValue⟩
  | txHash :: rest, txValue, flagged =>
    match client.TransactionByHash txHash with
    | none => ⟨flagged, .error .fatal⟩
    | some tx =>
      match toContract tx smartContractAddress with
      | .error e => ⟨flagged, .error e⟩
      | .ok true =>
        GetValueOfTransactionsForSmartcontract.loop client smartContractAddress limit rest
          (toString tx.Value)
          (if Cmp (tx.Value : Int) limit > 0 then flagged ++ [txHash] else flagged)
      | .ok false =>
        GetValueOfTransactionsForSmartcontract.loop client smartContractAddress limit rest
          txValue flagged

/-- The function `GetValueOfTransactionsForSmartcontract`. -/
def GetValueOfTransactionsForSmartcontract (w : World)
    (smartContractAddress _smartContractAbi blockNumber : String) : ValueRun :=
  match w.getTransactionHashesForBlock blockNumber with
  | none => ⟨[], .error .fatal⟩
  | some transactionHashes =>
    match w.Dial with
    | none => ⟨[], .error .fatal⟩
    | some client =>
      GetValueOfTransactionsForSmartcontract.loop client smartContractAddress valueLimit
        transactionHashes "" []

/-- The function `getTxSender`: the London signer for chain 31337 recovers the sender, or
returns an error (`none`). -/
def getTxSender (tx : Transaction) : Option Address := tx.Sender

/-- The inner loop `for _, addr := range blacklistAddresses`: whether some entry's `Address`
string is the sender's `Hex()`. -/
def onBlacklist (blacklistAddresses : List BlacklistAddress) (sender : Address) : Bool :=
  blacklistAddresses.any fun addr => decide (sender.Hex = addr.Address)

/-- The loop of `CheckSmartcontractTxAddresses` over the block's transaction hashes:
`some txHash` when the alert was printed for `txHash` (the function returns there), `none` when
the loop ran to its end without an alert. -/
def CheckSmartcontractTxAddresses.loop (client : Client)
    (blacklistAddresses : List BlacklistAddress) : List Hash → Except Abort (Option Hash)
  | [] => .ok none
  | txHash :: rest =>
    match client.TransactionByHash txHash with
    | none => .error .fatal
    | some tx =>
      match getTxSender tx with
      | none => .error .fatal
      | some sender =>
        if onBlacklist blacklistAddresses sender then .ok (some txHash)
        else CheckSmartcontractTxAddresses.loop client blacklistAddresses rest

/-- The function `CheckSmartcontractTxAddresses`. Its parameters `smartContractAddress` and
`smartContractAbi` are never read. -/
def CheckSmartcontractTxAddresses (w : World)
    (_smartContractAddress _smartContractAbi blockNumber : String) :
    Except Abort (Option Hash) :=
  match w.getTransactionHashesForBlock blockNumber with
  | none => .error .fatal
  | some transactionHashes =>
    match w.Dial with
    | none => .error .fatal
    | some client =>
      match w.blacklistFile with
      | none => .error .fatal
      | some none => .ok none
      | some (some blacklistAddresses) =>
        CheckSmartcontractTxAddresses.loop client blacklistAddresses transactionHashes

/-! ## The words of the specification -/

/-- Case-insensitive equality of two strings, as the specification compares addresses. -/
def eqFold (s t : String) : Bool :=
  s.toList.map Char.toLower == t.toList.map Char.toLower

/-- The filtering contract of the specification: a transaction belongs to the target contract
iff it has a recipient whose address equals the configured one, compared case-insensitively. -/
def belongsSpec (tx : Transaction) (smartContractAddress : String) : Bool :=
  match tx.To with
  | none => false
  | some recipient => eqFold recipient.Hex smartContractAddress

/-- The `type` of an ABI entry, when it is an object with a string-valued `type`. -/
def Json.entryType : Json → Option String
  | .object fn =>
    match fn.lookup "type" with
    | some (.string t) => some t
    | _ => none
  | _ => none

/-- The `declaredNames` of the specification: the names of the function and event entries. -/
def declaredNames (abi : List Json) : List String :=
  abi.filterMap fun item =>
    if item.entryType = some "function" ∨ item.entryType = some "event" then item.entryName
    else none

/-- The names of all entries that carry one, whatever their `type`. -/
def entryNames (abi : List Json) : List String := abi.filterMap Json.entryName

/-- Folding `DecodeTransactionInputData` over the call data of a sequence of transactions:
the loop of `GetAllFunctionCalls` on transactions that already passed the filter. -/
def foldDecode (contractABI : ABI) :
    List Transaction → Option Counter → Except Abort (Option Counter)
  | [], methodCounter => .ok methodCounter
  | tx :: rest, methodCounter =>
    match DecodeTransactionInputData contractABI tx.Data methodCounter with
    | .error e => .error e
    | .ok methodCounter => foldDecode contractABI rest methodCounter

/-! ## Quantities the statements below speak about -/

/-- The method name the loop of `GetAllFunctionCalls` records for one transaction hash: the
name `MethodById` resolves for a transaction that passes the filter, nothing otherwise. -/
def calledName (client : Client) (myABI : ABI) (smartContractAddress : String) (txHash : Hash) :
    Option String :=
  match client.TransactionByHash txHash with
  | none => none
  | some tx =>
    match toContract tx smartContractAddress with
    | .ok true => (myABI.MethodById (tx.Data.take 4)).map Method.Name
    | _ => none

/-- The method names recorded along a sequence of transaction hashes, in block order. -/
def calledNames (client : Client) (myABI : ABI) (smartContractAddress : String)
    (transactionHashes : List Hash) : List String :=
  transactionHashes.filterMap (calledName client myABI smartContractAddress)

/-- Whether the transaction behind a hash has a recipient (is not a contract creation). -/
def hasRecipient (client : Client) (txHash : Hash) : Bool :=
  match client.TransactionByHash txHash with
  | none => true
  | some tx => tx.To.isSome

/-- The call data of the transaction behind a hash resolves: when the transaction passes the
filter it carries at least 4 bytes and its selector is the ID of a method of the ABI. -/
def resolves (client : Client) (myABI : ABI) (smartContractAddress : String) (txHash : Hash) :
    Prop :=
  ∀ tx, client.TransactionByHash txHash = some tx →
    toContract tx smartContractAddress = .ok true →
    4 ≤ tx.Data.length ∧ ∃ method, myABI.MethodById (tx.Data.take 4) = some method

/-- A log entry is matched: it has a first topic and that topic is the ID of an ABI event. -/
def logMatched (contractABI : ABI) (vLog : Log) : Prop :=
  ∃ topic rest event, vLog.Topics = topic :: rest ∧ contractABI.EventByID topic = some event

/-- The event name recorded for a log entry, if any. -/
def loggedName (contractABI : ABI) (vLog : Log) : Option String :=
  match vLog.Topics with
  | [] => none
  | topic :: _ => (contractABI.EventByID topic).map Event.Name

/-- The scan of `CheckSmartcontractTxAddresses` passes over a transaction hash: the transaction
is fetched, its sender is recovered and the sender is on no blacklist entry. -/
def unmatched (client : Client) (blacklistAddresses : List BlacklistAddress) (txHash : Hash) :
    Prop :=
  ∃ tx sender, client.TransactionByHash txHash = some tx ∧ getTxSender tx = some sender ∧
    onBlacklist blacklistAddresses sender = false

/-! ## Concrete inputs -/

/-- The address `main.go` configures as `smartContractAddress`. -/
def mainAddress : Address := 0x2279B7A0a67DB372996a5FaB50D91eAA73d2eBe6

/-- The literal `main.go` assigns to `smartContractAddress`. -/
def mainAddressHex : String := "0x2279B7A0a67DB372996a5FaB50D91eAA73d2eBe6"

/-- The same address written in lower case. -/
def mainAddressLower : String := "0x2279b7a0a67db372996a5fab50d91eaa73d2ebe6"

/-- An externally owned account (an EIP-55 reference vector). -/
def aliceAddress : Address := 0x5aAeb6053F3E94C9b9A09f33669435E7Ef1BeAed

/-- The checksum rendering of `aliceAddress`. -/
def aliceHex : String := "0x5aAeb6053F3E94C9b9A09f33669435E7Ef1BeAed"

/-- The rendering of `aliceAddress` in upper-case digits. -/
def aliceUpper : String := "0x5AAEB6053F3E94C9B9A09F33669435E7EF1BEAED"

/-- Another account (an EIP-55 reference vector). -/
def bobAddress : Address := 0xfB6916095ca1df60bB79Ce92cE3Ea74c37c5d359

/-- The selector of `transfer(address,uint256)`. -/
def transferSelector : List Byte := [0xa9, 0x05, 0x9c, 0xbb]

/-- The selector of `approve(address,uint256)`. -/
def approveSelector : List Byte := [0x09, 0x5e, 0xa7, 0xb3]

/-- The topic hash of `Transfer(address,address,uint256)`. -/
def transferTopic : Hash := 0xddf252ad1be2c89b69c2b068fc378daa952ba7f163c4a11628f55a4df523b3ef

/-- A topic hash that is the ID of no event of `erc20`. -/
def foreignTopic : Hash := 0x1c411e9a96e071241c2f21f7726b17ae89e3cab4c78be50e062b03a9fffbbad1

/-- An ABI with three methods and two events, as `abi.JSON` reads it from `erc20Json`. -/
def erc20 : ABI where
  Methods := [⟨"transfer", transferSelector⟩, ⟨"approve", approveSelector⟩,
    ⟨"balanceOf", [0x70, 0xa0, 0x82, 0x31]⟩]
  Events := [⟨"Transfer", transferTopic⟩,
    ⟨"Approval", 0x8c5be1e5ebec7d5bd14f71427d1e84f3dd0314c0f7b2291e5b200ac8c7c3b925⟩]

/-- The entries of the ABI description of `erc20`. -/
def erc20Json : List Json :=
  [.object [("type", .string "function"), ("name", .string "transfer")],
   .object [("type", .string "function"), ("name", .string "approve")],
   .object [("type", .string "function"), ("name", .string "balanceOf")],
   .object [("type", .string "event"), ("name", .string "Transfer")],
   .object [("type", .string "event"), ("name", .string "Approval")]]

/-- An ABI description whose only entry is a custom error. -/
def errorJson : List Json :=
  [.object [("type", .string "error"), ("name", .string "Unauthorized")]]

/-- A call of `transfer` on the contract of `main.go`, sent by `aliceAddress`. -/
def txTransfer : Transaction where
  To := some mainAddress
  Data := transferSelector ++ List.replicate 64 0
  Value := 0
  Sender := some aliceAddress

/-- A call of `approve` on the contract of `main.go`. -/
def txApprove : Transaction where
  To := some mainAddress
  Data := approveSelector ++ List.replicate 64 0
  Value := 0
  Sender := some bobAddress

/-- A plain transfer from `aliceAddress` to `bobAddress`: not addressed to the contract. -/
def txOther : Transaction where
  To := some bobAddress
  Data := []
  Value := 5
  Sender := some aliceAddress

/-- A contract creation: no recipient. -/
def txCreate : Transaction where
  To := none
  Data := [0x60, 0x80, 0x60, 0x40, 0x52]
  Value := 0
  Sender := some bobAddress

/-- A call on the contract of `main.go` with a selector `erc20` does not declare. -/
def txUnknown : Transaction where
  To := some mainAddress
  Data := [0xde, 0xad, 0xbe, 0xef]
  Value := 0
  Sender := some bobAddress

/-- A payment to the contract of `main.go` of exactly the value limit plus one. -/
def txAbove : Transaction where
  To := some mainAddress
  Data := []
  Value := 10000000001
  Sender := some bobAddress

/-- A payment to the contract of `main.go` of exactly the value limit. -/
def txAtLimit : Transaction where
  To := some mainAddress
  Data := []
  Value := 10000000000
  Sender := some bobAddress

/-- A receipt with one `Transfer` log. -/
def receiptTransfer : Receipt where
  Status := 1
  Logs := [⟨[transferTopic, 1, 2]⟩]

/-- A receipt with one log whose first topic is `foreignTopic`. -/
def receiptForeign : Receipt where
  Status := 1
  Logs := [⟨[foreignTopic]⟩]

/-- A node that knows seven transactions, under the hashes 1 to 7. -/
def node : Client where
  TransactionByHash := fun txHash =>
    if txHash = 1 then some txTransfer
    else if txHash = 2 then some txApprove
    else if txHash = 3 then some txOther
    else if txHash = 4 then some txCreate
    else if txHash = 5 then some txUnknown
    else if txHash = 6 then some txAbove
    else if txHash = 7 then some txAtLimit
    else none
  TransactionReceipt := fun txHash =>
    if txHash = 1 then some receiptTransfer else if txHash = 5 then some receiptForeign else none

/-- A run's surroundings: the ABI description of `erc20`, the node `node`, the given block
content and blacklist. -/
def world (transactionHashes : List Hash) (blacklist : List BlacklistAddress) : World where
  Unmarshal := fun _ => some erc20Json
  abiJSON := fun _ => some erc20
  getTransactionHashesForBlock := fun _ => some transactionHashes
  Dial := some node
  blacklistFile := some (some blacklist)

/-- The counter with every name of `erc20Json` at 0. -/
def erc20Seed : Counter :=
  fun k => if k ∈ ["transfer", "approve", "balanceOf", "Transfer", "Approval"] then some 0
    else none

/-- A payment signed for another chain than 31337: `getTxSender` returns an error for it. -/
def txOtherChain : Transaction where
  To := some bobAddress
  Data := []
  Value := 1
  Sender := none

/-- The node `node` with one more transaction, `txOtherChain`, under the hash 8. -/
def nodeOtherChain : Client where
  TransactionByHash := fun txHash =>
    if txHash = 8 then some txOtherChain else node.TransactionByHash txHash
  TransactionReceipt := node.TransactionReceipt

/-! ## Keccak-256 and `Hex` on reference values -/

/-- Keccak-256 of the empty message (the reference value `c5d2…a470`). -/
theorem keccak256_nil :
    keccak256 [] = [0xc5, 0xd2, 0x46, 0x01, 0x86, 0xf7, 0x23, 0x3c, 0x92, 0x7e, 0x7d, 0xb2,
      0xdc, 0xc7, 0x03, 0xc0, 0xe5, 0x00, 0xb6, 0x53, 0xca, 0x82, 0x27, 0x3b, 0x7b, 0xfa,
      0xd8, 0x04, 0x5d, 0x85, 0xa4, 0x70] := by
  decide!

/-- The checksum rendering of the address in `main.go` is the literal written there. -/
theorem Hex_mainAddress : mainAddress.Hex = "0x2279B7A0a67DB372996a5FaB50D91eAA73d2eBe6" := by
  decide!

/-- The checksum rendering of `aliceAddress` (an EIP-55 reference vector). -/
theorem Hex_aliceAddress : aliceAddress.Hex = aliceHex := by
  decide!

/-- The checksum rendering of `bobAddress` (an EIP-55 reference vector). -/
theorem Hex_bobAddress : bobAddress.Hex = "0xfB6916095ca1df60bB79Ce92cE3Ea74c37c5d359" := by
  decide!

/-! ## Go integers and counters -/

/-- A value in the range of a Go `int` is not changed by wrapping. -/
theorem wrapInt_of_range (v : Int) (h1 : -2 ^ 63 ≤ v) (h2 : v < 2 ^ 63) : wrapInt v = v := by
  unfold wrapInt
  rw [Int.emod_eq_of_lt (by omega) (by omega)]
  omega

/-- Wrapping after each addition is wrapping once at the end. -/
theorem wrapInt_wrapInt_add (a b : Int) : wrapInt (wrapInt a + b) = wrapInt (a + b) := by
  unfold wrapInt
  have h1 : (a + 2 ^ 63) % 2 ^ 64 - 2 ^ 63 + b + 2 ^ 63 = (a + 2 ^ 63) % 2 ^ 64 + b := by ring
  have h2 : a + 2 ^ 63 + b = a + b + 2 ^ 63 := by ring
  rw [h1, Int.emod_add_emod, h2]

/-- Two increments commute. -/
theorem Counter.incr_comm (m : Counter) (a b : String) :
    (m.incr a).incr b = (m.incr b).incr a := by
  funext j
  by_cases hab : a = b
  · subst hab; rfl
  · have hba : b ≠ a := fun h => hab h.symm
    by_cases hja : j = a
    · subst hja; simp [Counter.incr, hab, hba]
    · by_cases hjb : j = b
      · subst hjb; simp [Counter.incr, hab, hba]
      · simp [Counter.incr, hja, hjb]

/-- The entry under `k` after recording a list of names: untouched when `k` is not among
them, else the old count (0 for an absent key) plus the number of occurrences, wrapped. -/
theorem foldl_incr_apply (names : List String) (m : Counter) (k : String) :
    (names.foldl Counter.incr m) k =
      if names.count k = 0 then m k
      else some (wrapInt ((m k).getD 0 + (names.count k : Int))) := by
  induction names generalizing m with
  | nil => simp
  | cons n ns ih =>
    rw [List.foldl_cons, ih]
    by_cases hn : n = k
    · subst hn
      by_cases hc : List.count n ns = 0
      · simp [hc, Counter.incr]
      · simp only [hc, Counter.incr, if_true, if_false, Option.getD_some, List.count_cons_self,
          Nat.succ_ne_zero, wrapInt_wrapInt_add]
        congr 2
        push_cast
        ring
    · have hkn : k ≠ n := fun h => hn h.symm
      simp [Counter.incr, hkn, List.count_cons_of_ne hn]

/-- Recording the same names in another order gives the same counter. -/
theorem foldl_incr_perm (l1 l2 : List String) (h : l1.Perm l2) (m : Counter) :
    l1.foldl Counter.incr m = l2.foldl Counter.incr m := by
  funext k
  rw [foldl_incr_apply, foldl_incr_apply, h.count_eq]

/-- The comparison `x.Cmp(y) > 0` is `y < x`. -/
theorem Cmp_pos_iff (x y : Int) : Cmp x y > 0 ↔ y < x := by
  unfold Cmp
  split
  · constructor
    · intro h; omega
    · intro h; omega
  · split
    · constructor
      · intro h; omega
      · intro h; omega
    · constructor
      · intro _; omega
      · intro _; omega

/-- A string equals itself case-insensitively. -/
theorem eqFold_self (s : String) : eqFold s s = true := by
  simp [eqFold]

/-! ## The filter, the decoders and the seed: basic facts -/

/-- On a transaction with a recipient the filter is the exact string comparison. -/
theorem toContract_of_recipient (tx : Transaction) (recipient : Address) (addr : String)
    (hto : tx.To = some recipient) :
    toContract tx addr = .ok (decide (recipient.Hex = addr)) := by
  simp [toContract, hto]

/-- On a contract creation the filter panics. -/
theorem toContract_of_creation (tx : Transaction) (addr : String) (hto : tx.To = none) :
    toContract tx addr = .error .nilDereference := by
  simp [toContract, hto]

/-- Call data shorter than 4 bytes: `data[:4]` panics. -/
theorem DecodeTransactionInputData_short (contractABI : ABI) (data : List Byte)
    (methodCounter : Option Counter) (h : data.length < 4) :
    DecodeTransactionInputData contractABI data methodCounter = .error .sliceBounds := by
  simp [DecodeTransactionInputData, h]

/-- A selector the ABI does not declare: `method.Name` dereferences nil. -/
theorem DecodeTransactionInputData_unknown (contractABI : ABI) (data : List Byte)
    (methodCounter : Option Counter) (h : 4 ≤ data.length)
    (hmiss : contractABI.MethodById (data.take 4) = none) :
    DecodeTransactionInputData contractABI data methodCounter = .error .nilDereference := by
  have : ¬ data.length < 4 := by omega
  simp [DecodeTransactionInputData, this, hmiss]

/-- A selector the ABI declares: the method's name is recorded. -/
theorem DecodeTransactionInputData_resolved (contractABI : ABI) (data : List Byte)
    (methodCounter : Option Counter) (method : Method) (h : 4 ≤ data.length)
    (hm : contractABI.MethodById (data.take 4) = some method) :
    DecodeTransactionInputData contractABI data methodCounter
      = increment methodCounter method.Name := by
  have : ¬ data.length < 4 := by omega
  simp [DecodeTransactionInputData, this, hm]

/-- A receipt whose log entries are all matched is decoded to its end. -/
theorem DecodeTransactionLogs_loop_matched (contractABI : ABI) (logs : List Log) (m : Counter)
    (h : ∀ vLog ∈ logs, logMatched contractABI vLog) :
    DecodeTransactionLogs.loop contractABI logs (some m)
      = .ok (some ((logs.filterMap (loggedName contractABI)).foldl Counter.incr m)) := by
  induction logs generalizing m with
  | nil => simp [DecodeTransactionLogs.loop]
  | cons vLog rest ih =>
    obtain ⟨topic, ts, event, htop, hev⟩ := h vLog (List.mem_cons_self _ _)
    have ih1 := fun m => ih m (fun x hx => h x (List.mem_cons_of_mem _ hx))
    simp [DecodeTransactionLogs.loop, htop, hev, increment, ih1, loggedName]

/-- The first log entry whose first topic is the ID of no event ends the run in `log.Fatal`. -/
theorem DecodeTransactionLogs_loop_miss (contractABI : ABI) (pre post : List Log) (vLog : Log)
    (topic : Hash) (ts : List Hash) (counter : Option Counter)
    (hcounter : counter ≠ none ∨ pre = [])
    (hpre : ∀ l ∈ pre, logMatched contractABI l) (htop : vLog.Topics = topic :: ts)
    (hmiss : contractABI.EventByID topic = none) :
    DecodeTransactionLogs.loop contractABI (pre ++ vLog :: post) counter = .error .fatal := by
  induction pre generalizing counter with
  | nil => simp [DecodeTransactionLogs.loop, htop, hmiss]
  | cons l rest ih =>
    obtain ⟨topic1, ts1, event, htop1, hev⟩ := hpre l (List.mem_cons_self _ _)
    have hpre1 : ∀ x ∈ rest, logMatched contractABI x :=
      fun x hx => hpre x (List.mem_cons_of_mem _ hx)
    cases counter with
    | none => simp at hcounter
    | some m =>
      simp only [List.cons_append, DecodeTransactionLogs.loop, htop1, hev, increment]
      exact ih _ (Or.inl (by simp)) hpre1

/-- One pass of the seed loop: the entry's name, when it has one, is set to 0. -/
theorem ExtractFunctionsFromAbi_body_apply (functionNames : Counter) (item : Json) (k : String) :
    ExtractFunctionsFromAbi.body functionNames item k =
      if item.entryName = some k then some 0 else functionNames k := by
  unfold ExtractFunctionsFromAbi.body
  cases h : item.entryName with
  | none => simp
  | some name => simp [Counter.set, eq_comm]

/-- The seed loop sets the name of every named entry to 0 and touches nothing else. -/
theorem foldl_body_apply (abi : List Json) (functionNames : Counter) (k : String) :
    abi.foldl ExtractFunctionsFromAbi.body functionNames k =
      if k ∈ entryNames abi then some 0 else functionNames k := by
  induction abi generalizing functionNames with
  | nil => simp [entryNames]
  | cons item rest ih =>
    rw [List.foldl_cons, ih, ExtractFunctionsFromAbi_body_apply]
    by_cases hk : k ∈ entryNames rest
    · have : k ∈ entryNames (item :: rest) := by
        simp only [entryNames, List.mem_filterMap] at hk ⊢
        obtain ⟨a, ha, hk⟩ := hk
        exact ⟨a, List.mem_cons_of_mem _ ha, hk⟩
      simp [hk, this]
    · by_cases hi : item.entryName = some k
      · have : k ∈ entryNames (item :: rest) := by
          simp only [entryNames, List.mem_filterMap]
          exact ⟨item, List.mem_cons_self _ _, hi⟩
        simp [hk, hi, this]
      · have : k ∉ entryNames (item :: rest) := by
          simp only [entryNames, List.mem_filterMap, List.mem_cons] at hk ⊢
          rintro ⟨a, ha | ha, hak⟩
          · exact hi (ha ▸ hak)
          · exact hk ⟨a, ha, hak⟩
        simp [hk, hi, this]

/-- An entry of the blacklist whose address string is the sender's `Hex()` is found. -/
theorem onBlacklist_of_mem (blacklist : List BlacklistAddress) (sender : Address)
    (entry : BlacklistAddress) (hentry : entry ∈ blacklist) (hhex : sender.Hex = entry.Address) :
    onBlacklist blacklist sender = true := by
  simp only [onBlacklist, List.any_eq_true, decide_eq_true_eq]
  exact ⟨entry, hentry, hhex⟩

/-! ## The loop of `GetAllFunctionCalls` in closed form -/

/-- The loop of `GetAllFunctionCalls` on fetched transactions whose call data resolves: a
contract creation anywhere in the block is a nil dereference, otherwise the names of the calls
on the contract are recorded in block order. -/
theorem loop_functionCalls (client : Client) (myABI : ABI) (addr : String)
    (hs : List Hash) (m : Counter)
    (hfetch : ∀ h ∈ hs, ∃ tx, client.TransactionByHash h = some tx)
    (hres : ∀ h ∈ hs, resolves client myABI addr h) :
    GetAllFunctionCalls.loop client myABI addr hs (some m) =
      if hs.all (hasRecipient client) then
        .ok (some ((calledNames client myABI addr hs).foldl Counter.incr m))
      else .error .nilDereference := by
  induction hs generalizing m with
  | nil => simp [GetAllFunctionCalls.loop, calledNames]
  | cons h rest ih =>
    obtain ⟨tx, htx⟩ := hfetch h (List.mem_cons_self _ _)
    have hr := hres h (List.mem_cons_self _ _) tx htx
    have ih1 := fun m => ih m (fun x hx => hfetch x (List.mem_cons_of_mem _ hx))
      (fun x hx => hres x (List.mem_cons_of_mem _ hx))
    cases hto : tx.To with
    | none =>
      simp [GetAllFunctionCalls.loop, GetAllFunctionCalls.body, htx, toContract, hto, hasRecipient]
    | some recipient =>
      by_cases hhex : recipient.Hex = addr
      · have htc : toContract tx addr = .ok true := by simp [toContract, hto, hhex]
        obtain ⟨hlen, method, hm⟩ := hr htc
        have hlt : ¬ tx.Data.length < 4 := by omega
        simp [GetAllFunctionCalls.loop, GetAllFunctionCalls.body, htx, htc,
          DecodeTransactionInputData, hlt, hm, increment, ih1, hasRecipient, hto, calledNames,
          calledName, List.filterMap_cons]
      · have htc : toContract tx addr = .ok false := by simp [toContract, hto, hhex]
        simp [GetAllFunctionCalls.loop, GetAllFunctionCalls.body, htx, htc, ih1, hasRecipient,
          hto, calledNames, calledName, List.filterMap_cons]

/-- Whether every transaction has a recipient does not depend on the order. -/
theorem all_hasRecipient_perm (client : Client) (hs1 hs2 : List Hash) (h : hs1.Perm hs2) :
    hs1.all (hasRecipient client) = hs2.all (hasRecipient client) := by
  rw [Bool.eq_iff_iff]
  simp only [List.all_eq_true]
  exact ⟨fun H x hx => H x (h.mem_iff.mpr hx), fun H x hx => H x (h.mem_iff.mp hx)⟩

/-- Folding the decoder over transactions whose call data resolves records their method
names in order. -/
theorem foldDecode_resolved (contractABI : ABI) (txs : List Transaction) (m : Counter)
    (hres : ∀ tx ∈ txs, 4 ≤ tx.Data.length ∧
      ∃ method, contractABI.MethodById (tx.Data.take 4) = some method) :
    foldDecode contractABI txs (some m) =
      .ok (some ((txs.filterMap fun tx =>
        (contractABI.MethodById (tx.Data.take 4)).map Method.Name).foldl Counter.incr m)) := by
  induction txs generalizing m with
  | nil => simp [foldDecode]
  | cons tx rest ih =>
    obtain ⟨hlen, method, hm⟩ := hres tx (List.mem_cons_self _ _)
    have ih1 := fun m => ih m (fun x hx => hres x (List.mem_cons_of_mem _ hx))
    simp [foldDecode, DecodeTransactionInputData_resolved contractABI tx.Data (some m) method hlen hm,
      increment, ih1, hm]

/-- The counter `GetAllFunctionCalls` returns for a block in which every transaction has a
recipient and every call on the contract resolves: each name seeded from the ABI description
or called is mapped to the number of calls of that name, every other name is absent. -/
theorem GetAllFunctionCalls_counts (w : World) (client : Client) (myABI : ABI)
    (abi : List Json) (addr abiJson blockNumber : String) (hs : List Hash)
    (hU : w.Unmarshal abiJson = some abi)
    (hblock : w.getTransactionHashesForBlock blockNumber = some hs)
    (habi : w.abiJSON abiJson = some myABI) (hdial : w.Dial = some client)
    (hfetch : ∀ h ∈ hs, ∃ tx, client.TransactionByHash h = some tx)
    (hres : ∀ h ∈ hs, resolves client myABI addr h)
    (hrec : hs.all (hasRecipient client) = true) (hlen : hs.length < 2 ^ 63) :
    ∃ c : Counter, GetAllFunctionCalls w addr abiJson blockNumber = .ok (some c) ∧
      ∀ k, c k =
        if k ∈ entryNames abi ∨ k ∈ calledNames client myABI addr hs then
          some ((calledNames client myABI addr hs).count k : Int)
        else none := by
  refine ⟨(calledNames client myABI addr hs).foldl Counter.incr
    (abi.foldl ExtractFunctionsFromAbi.body Counter.empty), ?_, ?_⟩
  · simp only [GetAllFunctionCalls, ExtractFunctionsFromAbi, hU, hblock, habi, hdial]
    rw [loop_functionCalls client myABI addr hs _ hfetch hres, hrec]
    rfl
  · intro k
    rw [foldl_incr_apply, foldl_body_apply]
    have hle : (calledNames client myABI addr hs).count k ≤ hs.length :=
      (List.count_le_length _ _).trans (List.length_filterMap_le _ _)
    by_cases hc : (calledNames client myABI addr hs).count k = 0
    · have hnot : k ∉ calledNames client myABI addr hs := List.count_eq_zero.mp hc
      by_cases hk : k ∈ entryNames abi <;> simp [hc, hk, hnot, Counter.empty]
    · have hmem : k ∈ calledNames client myABI addr hs := by
        by_contra hn
        exact hc (List.count_eq_zero.mpr hn)
      have hpos : 0 < (calledNames client myABI addr hs).count k := Nat.pos_of_ne_zero hc
      by_cases hk : k ∈ entryNames abi
      · simp only [hc, hk, hmem, if_true, if_false, Option.getD_some, true_or, zero_add]
        rw [wrapInt_of_range _ (by omega) (by omega)]
      · simp only [hc, hk, hmem, if_true, if_false, Counter.empty, Option.getD_none, or_true,
          zero_add]
        rw [wrapInt_of_range _ (by omega) (by omega)]

/-- The four loops gated on the filter pass over a block of transactions that have a
recipient other than the contract: counters, receipts and flags are left as they were. -/
theorem loops_skip_other_transactions (client : Client) (myABI : ABI) (addr : String)
    (limit : Int) (hs : List Hash)
    (hskip : ∀ h ∈ hs, ∃ tx, client.TransactionByHash h = some tx ∧
      toContract tx addr = .ok false) :
    (∀ c, GetAllFunctionCalls.loop client myABI addr hs c = .ok c) ∧
    (∀ c, GetAllEvents.loop client myABI addr hs c = .ok c) ∧
    (∀ acc, GetAllTransactions.loop client addr hs acc = .ok acc) ∧
    (∀ txValue flagged, GetValueOfTransactionsForSmartcontract.loop client addr limit hs
      txValue flagged = ⟨flagged, .ok txValue⟩) := by
  induction hs with
  | nil =>
    simp [GetAllFunctionCalls.loop, GetAllEvents.loop, GetAllTransactions.loop,
      GetValueOfTransactionsForSmartcontract.loop]
  | cons h rest ih =>
    obtain ⟨tx, htx, hc⟩ := hskip h (List.mem_cons_self _ _)
    obtain ⟨i1, i2, i3, i4⟩ := ih (fun x hx => hskip x (List.mem_cons_of_mem _ hx))
    refine ⟨?_, ?_, ?_, ?_⟩
    · intro c
      simp [GetAllFunctionCalls.loop, GetAllFunctionCalls.body, htx, hc, i1]
    · intro c
      simp [GetAllEvents.loop, GetAllEvents.body, htx, hc, i2]
    · intro acc
      simp [GetAllTransactions.loop, GetAllTransactions.body, htx, hc, i3]
    · intro txValue flagged
      simp [GetValueOfTransactionsForSmartcontract.loop, htx, hc, i4]

/-! ## The node `node` -/

/-- The call data of the transactions 1, 2 and 3 of `node` resolves in `erc20`. -/
theorem node_resolves (h : Hash) (hh : h ∈ [1, 2, 3]) : resolves node erc20 mainAddressHex h := by
  have hne : bobAddress.Hex ≠ mainAddressHex := by
    rw [Hex_bobAddress]; decide
  intro tx htx hc
  simp only [List.mem_cons, List.mem_singleton, List.not_mem_nil, or_false] at hh
  rcases hh with rfl | rfl | rfl
  · have : tx = txTransfer := by
      have : node.TransactionByHash 1 = some txTransfer := rfl
      rw [this] at htx; exact (Option.some.inj htx).symm
    subst this
    exact ⟨by decide, ⟨"transfer", transferSelector⟩, rfl⟩
  · have : tx = txApprove := by
      have : node.TransactionByHash 2 = some txApprove := rfl
      rw [this] at htx; exact (Option.some.inj htx).symm
    subst this
    exact ⟨by decide, ⟨"approve", approveSelector⟩, rfl⟩
  · have : tx = txOther := by
      have : node.TransactionByHash 3 = some txOther := rfl
      rw [this] at htx; exact (Option.some.inj htx).symm
    subst this
    simp [toContract, txOther, hne] at hc

/-- The node `node` knows the transactions 1, 2 and 3. -/
theorem node_fetches (h : Hash) (hh : h ∈ [1, 2, 3]) :
    ∃ tx, node.TransactionByHash h = some tx := by
  simp only [List.mem_cons, List.mem_singleton, List.not_mem_nil, or_false] at hh
  rcases hh with rfl | rfl | rfl
  · exact ⟨txTransfer, rfl⟩
  · exact ⟨txApprove, rfl⟩
  · exact ⟨txOther, rfl⟩

/-- The names recorded for the block 1, 2, 3 of `node`. -/
theorem calledNames_three : calledNames node erc20 mainAddressHex [1, 2, 3]
    = ["transfer", "approve"] := by
  have hne : bobAddress.Hex ≠ mainAddressHex := by
    rw [Hex_bobAddress]; decide
  have h1 : calledName node erc20 mainAddressHex 1 = some "transfer" := by
    have : node.TransactionByHash 1 = some txTransfer := rfl
    simp only [calledName, this, toContract, txTransfer, Hex_mainAddress, mainAddressHex]
    rfl
  have h2 : calledName node erc20 mainAddressHex 2 = some "approve" := by
    have : node.TransactionByHash 2 = some txApprove := rfl
    simp only [calledName, this, toContract, txApprove, Hex_mainAddress, mainAddressHex]
    rfl
  have h3 : calledName node erc20 mainAddressHex 3 = none := by
    have : node.TransactionByHash 3 = some txOther := rfl
    simp [calledName, this, toContract, txOther, hne]
  simp [calledNames, List.filterMap_cons, h1, h2, h3]

/-- The end-to-end scenario of the specification: a block of a `transfer` and an `approve`
on the contract and one unrelated payment gives `transfer:1, approve:1`, every other declared
name 0 and no further key. -/
theorem GetAllFunctionCalls_three_transactions :
    ∃ c : Counter, GetAllFunctionCalls (world [1, 2, 3] []) mainAddressHex "" "0xB"
        = .ok (some c) ∧
      c "transfer" = some 1 ∧ c "approve" = some 1 ∧ c "balanceOf" = some 0 ∧
      c "Transfer" = some 0 ∧ c "Approval" = some 0 ∧
      ∀ k, k ∉ ["transfer", "approve", "balanceOf", "Transfer", "Approval"] → c k = none := by
  obtain ⟨c, hc, hk⟩ := GetAllFunctionCalls_counts (world [1, 2, 3] []) node erc20 erc20Json
    mainAddressHex "" "0xB" [1, 2, 3] rfl rfl rfl rfl node_fetches node_resolves rfl (by decide)
  have hnames : entryNames erc20Json
      = ["transfer", "approve", "balanceOf", "Transfer", "Approval"] := by
    simp [entryNames, erc20Json, Json.entryName, List.lookup]
  rw [calledNames_three, hnames] at hk
  refine ⟨c, hc, ?_, ?_, ?_, ?_, ?_, ?_⟩
  · rw [hk]; decide
  · rw [hk]; decide
  · rw [hk]; decide
  · rw [hk]; decide
  · rw [hk]; decide
  · intro k hnot
    rw [hk]
    have h2 : ¬ (k ∈ ["transfer", "approve", "balanceOf", "Transfer", "Approval"] ∨
        k ∈ ["transfer", "approve"]) := by
      intro h
      rcases h with h | h
      · exact hnot h
      · apply hnot
        simp only [List.mem_cons, List.mem_singleton, List.not_mem_nil, or_false] at h ⊢
        rcases h with h | h
        · exact Or.inl h
        · exact Or.inr (Or.inl h)
    rw [if_neg h2]

/-! ## C1: the filter -/

/-- C1, counterexample: the transaction `txTransfer` is addressed to the contract of `main.go`
and the configured address is that same address written in lower case, so the two are equal
case-insensitively, yet the filter treats the transaction as not belonging. -/
theorem C1_lower_case_address_is_not_matched :
    belongsSpec txTransfer mainAddressLower = true ∧
      toContract txTransfer mainAddressLower = .ok false := by
  have hne : mainAddress.Hex ≠ mainAddressLower := by
    rw [Hex_mainAddress]
    decide
  constructor
  · simp only [belongsSpec, txTransfer, Hex_mainAddress]
    decide
  · simp [toContract, txTransfer, hne]

/-- C1, as amended: for every fetched transaction that has a recipient and every configured
contract address, the filter treats the transaction as belonging if and only if the recipient's
checksum rendering (`Address.Hex`) equals the configured string exactly, character for
character; a belonging transaction therefore also matches case-insensitively. The loops of
`GetAllFunctionCalls`, `GetAllEvents`, `GetAllTransactions` and
`GetValueOfTransactionsForSmartcontract` process the transaction exactly in that case and pass
over it otherwise. -/
theorem C1_filter_is_exact_match (tx : Transaction) (recipient : Address) (addr : String)
    (hto : tx.To = some recipient) :
    toContract tx addr = .ok (decide (recipient.Hex = addr)) ∧
    (toContract tx addr = .ok true → belongsSpec tx addr = true) ∧
    (∀ (client : Client) (myABI : ABI) (txHash : Hash) (counter : Option Counter),
      client.TransactionByHash txHash = some tx →
      GetAllFunctionCalls.body client myABI addr txHash counter =
        (if recipient.Hex = addr then DecodeTransactionInputData myABI tx.Data counter
          else .ok counter) ∧
      (recipient.Hex ≠ addr → GetAllEvents.body client myABI addr txHash counter = .ok counter) ∧
      (recipient.Hex = addr → ∀ receipt1, client.TransactionReceipt txHash = some receipt1 →
        GetAllEvents.body client myABI addr txHash counter =
          DecodeTransactionLogs receipt1 myABI counter)) ∧
    (∀ (client : Client) (txHash : Hash) (acc : List Receipt × Nat × Nat),
      client.TransactionByHash txHash = some tx → recipient.Hex ≠ addr →
      GetAllTransactions.body client addr txHash acc = .ok acc) ∧
    (∀ (client : Client) (txHash : Hash) (acc : List Receipt × Nat × Nat) (receipt1 : Receipt),
      client.TransactionByHash txHash = some tx → recipient.Hex = addr →
      client.TransactionReceipt txHash = some receipt1 →
      ∃ failed ok, GetAllTransactions.body client addr txHash acc
        = .ok (acc.1 ++ [receipt1], failed, ok)) ∧
    (∀ (client : Client) (limit : Int) (txHash : Hash) (rest : List Hash) (txValue : String)
      (flagged : List Hash), client.TransactionByHash txHash = some tx →
      GetValueOfTransactionsForSmartcontract.loop client addr limit (txHash :: rest) txValue
          flagged =
        if recipient.Hex = addr then
          GetValueOfTransactionsForSmartcontract.loop client addr limit rest (toString tx.Value)
            (if Cmp (tx.Value : Int) limit > 0 then flagged ++ [txHash] else flagged)
        else
          GetValueOfTransactionsForSmartcontract.loop client addr limit rest txValue flagged) := by
  have hc := toContract_of_recipient tx recipient addr hto
  refine ⟨hc, ?_, ?_, ?_, ?_, ?_⟩
  · intro h
    rw [hc] at h
    have hex : recipient.Hex = addr := by simpa using h
    simp [belongsSpec, hto, hex, eqFold_self]
  · intro client myABI txHash counter hfetch
    refine ⟨?_, ?_, ?_⟩
    · by_cases hex : recipient.Hex = addr <;> simp [GetAllFunctionCalls.body, hfetch, hc, hex]
    · intro hex
      simp [GetAllEvents.body, hfetch, hc, hex]
    · intro hex receipt1 hrec
      simp [GetAllEvents.body, hfetch, hc, hex, GetTransactionReceipt, hrec]
  · intro client txHash acc hfetch hex
    simp [GetAllTransactions.body, hfetch, hc, hex]
  · intro client txHash acc receipt1 hfetch hex hrec
    simp [GetAllTransactions.body, hfetch, hc, hex, GetTransactionReceipt, hrec]
  · intro client limit txHash rest txValue flagged hfetch
    by_cases hex : recipient.Hex = addr <;>
      simp [GetValueOfTransactionsForSmartcontract.loop, hfetch, hc, hex]

/-- C1, witness: `txTransfer` has the recipient `mainAddress`; it belongs under the address
literal of `main.go` and does not belong under another address. -/
theorem C1_filter_is_exact_match_witness :
    txTransfer.To = some mainAddress ∧
      toContract txTransfer mainAddressHex = .ok true ∧
      toContract txTransfer aliceHex = .ok false := by
  have h := (C1_filter_is_exact_match txTransfer mainAddress mainAddressHex rfl).1
  have h2 := (C1_filter_is_exact_match txTransfer mainAddress aliceHex rfl).1
  rw [Hex_mainAddress] at h h2
  exact ⟨rfl, h, h2⟩

/-! ## C2: call data that resolves to no method -/

/-- C2, the code at the failing inputs: on empty call data `DecodeTransactionInputData` ends
in a slice-bounds panic, on a 4-byte selector the ABI does not declare it ends in a nil
dereference, and a block holding such a call on the contract ends `GetAllFunctionCalls` the
same way; in no case is the counter returned. -/
theorem C2_decoder_aborts_on_a_miss :
    DecodeTransactionInputData erc20 [] (some erc20Seed) = .error .sliceBounds ∧
    DecodeTransactionInputData erc20 [0xde, 0xad, 0xbe, 0xef] (some erc20Seed)
      = .error .nilDereference ∧
    GetAllFunctionCalls (world [5] []) mainAddressHex "" "0xB" = .error .nilDereference := by
  refine ⟨rfl, rfl, ?_⟩
  simp [GetAllFunctionCalls, world, GetAllFunctionCalls.loop, GetAllFunctionCalls.body, node,
    toContract, txUnknown, Hex_mainAddress, mainAddressHex]
  rfl

/-! ## C3: log entries that match no event -/

/-- C3, counterexample: a receipt with one log entry whose first topic is the ID of no ABI
event ends the run in `log.Fatal`; the counter is not returned unchanged. -/
theorem C3_unmatched_topic_is_fatal :
    DecodeTransactionLogs receiptForeign erc20 (some erc20Seed) = .error .fatal ∧
    DecodeTransactionLogs receiptForeign erc20 (some erc20Seed) ≠ .ok (some erc20Seed) := by
  have h : DecodeTransactionLogs receiptForeign erc20 (some erc20Seed) = .error .fatal := by
    simp [DecodeTransactionLogs, DecodeTransactionLogs.loop, receiptForeign, erc20,
      ABI.EventByID, foreignTopic, transferTopic]
  exact ⟨h, by rw [h]; simp⟩

/-- C3, as amended: on a non-nil counter, `DecodeTransactionLogs` returns exactly for receipts
whose log entries all have a first topic that is the ID of an ABI event, recording each such
event; at the first entry that has a first topic matching no event it ends the run in
`log.Fatal`; a receipt with no log entries returns the counter unchanged. -/
theorem C3_logs_decoded_until_unmatched_topic (receipt : Receipt) (contractABI : ABI)
    (m : Counter) :
    ((∀ vLog ∈ receipt.Logs, logMatched contractABI vLog) →
      DecodeTransactionLogs receipt contractABI (some m) =
        .ok (some ((receipt.Logs.filterMap (loggedName contractABI)).foldl Counter.incr m))) ∧
    (∀ (pre post : List Log) (vLog : Log) (topic : Hash) (ts : List Hash),
      receipt.Logs = pre ++ vLog :: post → (∀ l ∈ pre, logMatched contractABI l) →
      vLog.Topics = topic :: ts → contractABI.EventByID topic = none →
      DecodeTransactionLogs receipt contractABI (some m) = .error .fatal) ∧
    (receipt.Logs = [] → DecodeTransactionLogs receipt contractABI (some m) = .ok (some m)) := by
  refine ⟨?_, ?_, ?_⟩
  · intro h
    exact DecodeTransactionLogs_loop_matched contractABI receipt.Logs m h
  · intro pre post vLog topic ts hlogs hpre htop hmiss
    unfold DecodeTransactionLogs
    rw [hlogs]
    exact DecodeTransactionLogs_loop_miss contractABI pre post vLog topic ts (some m)
      (Or.inl (by simp)) hpre htop hmiss
  · intro h
    simp [DecodeTransactionLogs, h, DecodeTransactionLogs.loop]

/-! ## C4: the method counter of a block -/

/-- C4, the code at the failing input: in the block 1, 2, 4 of `node` both calls on the
contract resolve (`transfer`, `approve`) and the third transaction is a contract creation,
not addressed to the contract; `tx.To().Hex()` panics on it and `GetAllFunctionCalls` returns
no counter. -/
theorem C4_contract_creation_aborts_the_count :
    hasRecipient node 4 = false ∧
    toContract txCreate mainAddressHex = .error .nilDereference ∧
    GetAllFunctionCalls (world [1, 2, 4] []) mainAddressHex "" "0xB"
      = .error .nilDereference := by
  refine ⟨rfl, rfl, ?_⟩
  have h1 : node.TransactionByHash 1 = some txTransfer := rfl
  have h2 : node.TransactionByHash 2 = some txApprove := rfl
  have h4 : node.TransactionByHash 4 = some txCreate := rfl
  have t1 : toContract txTransfer mainAddressHex = .ok true := by
    simp [toContract, txTransfer, Hex_mainAddress, mainAddressHex]
  have t2 : toContract txApprove mainAddressHex = .ok true := by
    simp [toContract, txApprove, Hex_mainAddress, mainAddressHex]
  have d1 : ∀ c, DecodeTransactionInputData erc20 txTransfer.Data (some c)
      = .ok (some (c.incr "transfer")) := fun _ => rfl
  have d2 : ∀ c, DecodeTransactionInputData erc20 txApprove.Data (some c)
      = .ok (some (c.incr "approve")) := fun _ => rfl
  simp only [GetAllFunctionCalls, world, ExtractFunctionsFromAbi, GetAllFunctionCalls.loop,
    GetAllFunctionCalls.body, h1, h2, h4, t1, t2, d1, d2]
  rfl

/-! ## C5: the counter seed -/

/-- C5, counterexample: an ABI description whose only entry is a custom error has no function
or event name, yet the seed has the key `Unauthorized`. -/
theorem C5_error_entry_seeds_a_key :
    declaredNames errorJson = [] ∧
    (ExtractFunctionsFromAbi (fun _ => some errorJson) "").map (fun c => c "Unauthorized")
      = some (some 0) := by
  constructor
  · simp [declaredNames, errorJson, Json.entryType, List.lookup]
  · simp [ExtractFunctionsFromAbi, errorJson, ExtractFunctionsFromAbi.body, Json.entryName,
      List.lookup, Counter.set]

/-- C5, as amended: for every ABI description that parses as an array of entries,
`ExtractFunctionsFromAbi` returns a counter whose key set is exactly the set of string-valued
`name` fields of the entries that are objects, whatever their `type`, one entry per distinct
name, every count 0; when every named entry is a function or an event this is the set of
function and event names. -/
theorem C5_seed_is_every_named_entry (Unmarshal : String → Option (List Json))
    (abiJson : String) (abi : List Json) (h : Unmarshal abiJson = some abi) :
    ∃ functionNames, ExtractFunctionsFromAbi Unmarshal abiJson = some functionNames ∧
      (∀ k, functionNames k = if k ∈ entryNames abi then some 0 else none) ∧
      ((∀ item ∈ abi, item.entryName ≠ none →
          item.entryType = some "function" ∨ item.entryType = some "event") →
        ∀ k, functionNames k = if k ∈ declaredNames abi then some 0 else none) := by
  refine ⟨abi.foldl ExtractFunctionsFromAbi.body Counter.empty,
    by simp [ExtractFunctionsFromAbi, h], ?_, ?_⟩
  · intro k
    rw [foldl_body_apply]
    simp [Counter.empty]
  · intro hall k
    rw [foldl_body_apply]
    have : k ∈ entryNames abi ↔ k ∈ declaredNames abi := by
      simp only [entryNames, declaredNames, List.mem_filterMap]
      constructor
      · rintro ⟨a, ha, hk⟩
        refine ⟨a, ha, ?_⟩
        have := hall a ha (by simp [hk])
        simp [this, hk]
      · rintro ⟨a, ha, hk⟩
        refine ⟨a, ha, ?_⟩
        split at hk
        · exact hk
        · simp at hk
    simp [this, Counter.empty]

/-- C5, witness: the ABI description `erc20Json` parses as an array. -/
theorem C5_seed_is_every_named_entry_witness :
    ∃ functionNames, ExtractFunctionsFromAbi (fun _ => some erc20Json) "" = some functionNames ∧
      (∀ k, functionNames k = if k ∈ entryNames erc20Json then some 0 else none) ∧
      ((∀ item ∈ erc20Json, item.entryName ≠ none →
          item.entryType = some "function" ∨ item.entryType = some "event") →
        ∀ k, functionNames k = if k ∈ declaredNames erc20Json then some 0 else none) :=
  C5_seed_is_every_named_entry (fun _ => some erc20Json) "" erc20Json rfl

/-! ## C6: the value check -/

/-- C6: for every transaction that passes the filter and every limit, the loop of
`GetValueOfTransactionsForSmartcontract` flags the transaction if and only if its value is
strictly greater than the limit under exact integer comparison: value = limit + 1 is flagged,
value = limit is not; with the limit of the code the bound is 10000000000. -/
theorem C6_value_flag_iff_above_limit (client : Client) (addr : String) (limit : Int)
    (txHash : Hash) (tx : Transaction) (recipient : Address)
    (hfetch : client.TransactionByHash txHash = some tx) (hto : tx.To = some recipient)
    (hhex : recipient.Hex = addr) :
    (∀ (rest : List Hash) (txValue : String) (flagged : List Hash),
      GetValueOfTransactionsForSmartcontract.loop client addr limit (txHash :: rest) txValue
          flagged =
        GetValueOfTransactionsForSmartcontract.loop client addr limit rest (toString tx.Value)
          (if limit < (tx.Value : Int) then flagged ++ [txHash] else flagged)) ∧
    ((GetValueOfTransactionsForSmartcontract.loop client addr limit [txHash] "" []).flagged
        = [txHash] ↔ limit < (tx.Value : Int)) ∧
    ((GetValueOfTransactionsForSmartcontract.loop client addr limit [txHash] "" []).flagged
        = [] ↔ ¬ limit < (tx.Value : Int)) ∧
    ((tx.Value : Int) = limit + 1 →
      (GetValueOfTransactionsForSmartcontract.loop client addr limit [txHash] "" []).flagged
        = [txHash]) ∧
    ((tx.Value : Int) = limit →
      (GetValueOfTransactionsForSmartcontract.loop client addr limit [txHash] "" []).flagged
        = []) ∧
    (∀ (w : World) (smartContractAbi blockNumber : String),
      w.getTransactionHashesForBlock blockNumber = some [txHash] → w.Dial = some client →
      ((GetValueOfTransactionsForSmartcontract w addr smartContractAbi blockNumber).flagged
        = [txHash] ↔ 10000000000 < tx.Value)) := by
  have hc : toContract tx addr = .ok true := by simp [toContract, hto, hhex]
  have hstep : ∀ (limit : Int) (rest : List Hash) (txValue : String) (flagged : List Hash),
      GetValueOfTransactionsForSmartcontract.loop client addr limit (txHash :: rest) txValue
          flagged =
        GetValueOfTransactionsForSmartcontract.loop client addr limit rest (toString tx.Value)
          (if limit < (tx.Value : Int) then flagged ++ [txHash] else flagged) := by
    intro limit rest txValue flagged
    simp [GetValueOfTransactionsForSmartcontract.loop, hfetch, hc, Cmp_pos_iff]
  have hone : ∀ limit : Int,
      (GetValueOfTransactionsForSmartcontract.loop client addr limit [txHash] "" []).flagged
        = if limit < (tx.Value : Int) then [txHash] else [] := by
    intro limit
    rw [hstep]
    by_cases h : limit < (tx.Value : Int) <;>
      simp [GetValueOfTransactionsForSmartcontract.loop, h]
  refine ⟨hstep limit, ?_, ?_, ?_, ?_, ?_⟩
  · rw [hone]; by_cases h : limit < (tx.Value : Int) <;> simp [h]
  · rw [hone]; by_cases h : limit < (tx.Value : Int) <;> simp [h]
  · intro h; rw [hone]; simp [h]
  · intro h; rw [hone]; simp [h]
  · intro w abi block hblock hdial
    simp only [GetValueOfTransactionsForSmartcontract, hblock, hdial, hone, valueLimit]
    by_cases h : (10000000000 : Int) < (tx.Value : Int)
    · have h1 : 10000000000 < tx.Value := by exact_mod_cast h
      simp [h, h1]
    · have h1 : ¬ 10000000000 < tx.Value := by
        intro h2; exact h (by exact_mod_cast h2)
      simp [h, h1]

/-- C6, witness: on `node`, the payment of 10000000001 to the contract is flagged and the
payment of 10000000000 is not. -/
theorem C6_value_flag_iff_above_limit_witness :
    (GetValueOfTransactionsForSmartcontract.loop node mainAddressHex 10000000000 [6] "" []).flagged
        = [6] ∧
    (GetValueOfTransactionsForSmartcontract.loop node mainAddressHex 10000000000 [7] "" []).flagged
        = [] :=
  ⟨(C6_value_flag_iff_above_limit node mainAddressHex 10000000000 6 txAbove mainAddress rfl rfl
      Hex_mainAddress).2.2.2.1 rfl,
   (C6_value_flag_iff_above_limit node mainAddressHex 10000000000 7 txAtLimit mainAddress rfl rfl
      Hex_mainAddress).2.2.2.2.1 rfl⟩

/-! ## C7: the blacklist check -/

/-- C7, counterexample: the sender of `txTransfer` is `aliceAddress` and the blacklist entry is
the same address in upper-case digits; the two are equal case-insensitively, yet the scan of
the block emits no alert. -/
theorem C7_other_letter_case_is_not_flagged :
    getTxSender txTransfer = some aliceAddress ∧
    eqFold aliceAddress.Hex aliceUpper = true ∧
    CheckSmartcontractTxAddresses.loop node [⟨aliceUpper, "", ""⟩] [1] = .ok none := by
  have hne : aliceAddress.Hex ≠ aliceUpper := by
    rw [Hex_aliceAddress]; decide
  refine ⟨rfl, ?_, ?_⟩
  · rw [Hex_aliceAddress]; decide
  · simp [CheckSmartcontractTxAddresses.loop, node, getTxSender, txTransfer, onBlacklist, hne]

/-- C7, as amended: for every block and blacklist, if the recovered sender's checksum rendering
(`Address.Hex`) equals the address string of some blacklist entry exactly, and every earlier
transaction of the block was fetched with a recovered sender that is on no entry, then
`CheckSmartcontractTxAddresses` emits the alert for that transaction. -/
theorem C7_exact_blacklist_match_is_flagged (client : Client)
    (blacklist : List BlacklistAddress) (pre post : List Hash) (txHash : Hash)
    (tx : Transaction) (sender : Address) (entry : BlacklistAddress)
    (hpre : ∀ h ∈ pre, ∃ tx0 sender0, client.TransactionByHash h = some tx0 ∧
      getTxSender tx0 = some sender0 ∧ onBlacklist blacklist sender0 = false)
    (hfetch : client.TransactionByHash txHash = some tx)
    (hsender : getTxSender tx = some sender)
    (hentry : entry ∈ blacklist) (hhex : sender.Hex = entry.Address) :
    CheckSmartcontractTxAddresses.loop client blacklist (pre ++ txHash :: post)
      = .ok (some txHash) := by
  induction pre with
  | nil =>
    simp [CheckSmartcontractTxAddresses.loop, hfetch, hsender,
      onBlacklist_of_mem blacklist sender entry hentry hhex]
  | cons h rest ih =>
    obtain ⟨tx0, sender0, h1, h2, h3⟩ := hpre h (List.mem_cons_self _ _)
    simp only [List.cons_append, CheckSmartcontractTxAddresses.loop, h1, h2, h3]
    exact ih (fun x hx => hpre x (List.mem_cons_of_mem _ hx))

/-- C7, witness: on `node`, the block 2, 1, 3 with `aliceAddress` blacklisted in checksum
form: the alert is for transaction 1. -/
theorem C7_exact_blacklist_match_is_flagged_witness :
    CheckSmartcontractTxAddresses.loop node [⟨aliceHex, "", ""⟩] ([2] ++ 1 :: [3])
      = .ok (some 1) := by
  have hne : bobAddress.Hex ≠ aliceHex := by
    rw [Hex_bobAddress]; decide
  refine C7_exact_blacklist_match_is_flagged node [⟨aliceHex, "", ""⟩] [2] [3] 1 txTransfer
    aliceAddress ⟨aliceHex, "", ""⟩ ?_ rfl rfl (by simp) Hex_aliceAddress
  intro h hh
  simp only [List.mem_singleton] at hh
  subst hh
  exact ⟨txApprove, bobAddress, rfl, rfl, by simp [onBlacklist, hne]⟩

/-! ## C8: blocks without a transaction for the contract -/

/-- C8, the code at the failing inputs: `txOther` is not addressed to the contract, yet
`CheckSmartcontractTxAddresses`, which never reads the contract address, emits the blacklist
alert for it; and on a block holding a contract creation the value check ends in a nil
dereference. -/
theorem C8_blacklist_scan_ignores_the_recipient :
    toContract txOther mainAddressHex = .ok false ∧
    CheckSmartcontractTxAddresses (world [3] [⟨aliceHex, "", ""⟩]) mainAddressHex "" "0xB"
      = .ok (some 3) ∧
    (GetValueOfTransactionsForSmartcontract (world [4] []) mainAddressHex "" "0xB").result
      = .error .nilDereference := by
  have hne : bobAddress.Hex ≠ mainAddressHex := by
    rw [Hex_bobAddress]; decide
  have h3 : node.TransactionByHash 3 = some txOther := rfl
  have h4 : node.TransactionByHash 4 = some txCreate := rfl
  refine ⟨?_, ?_, ?_⟩
  · simp [toContract, txOther, hne]
  · simp [CheckSmartcontractTxAddresses, world, CheckSmartcontractTxAddresses.loop, h3,
      getTxSender, txOther, onBlacklist, Hex_aliceAddress]
  · simp [GetValueOfTransactionsForSmartcontract, world,
      GetValueOfTransactionsForSmartcontract.loop, h4, toContract, txCreate]

/-! ## C9: recording a name -/

/-- C9, counterexample: the empty counter has no key `transfer`; decoding a `transfer` call
returns a counter in which `transfer` is a key, with count 1. -/
theorem C9_recording_adds_an_absent_key :
    Counter.empty "transfer" = none ∧
    DecodeTransactionInputData erc20 transferSelector (some Counter.empty)
      = .ok (some (Counter.empty.incr "transfer")) ∧
    (Counter.empty.incr "transfer") "transfer" = some 1 := by
  refine ⟨rfl, rfl, ?_⟩
  simp [Counter.incr, Counter.empty, wrapInt]

/-- C9, as amended: recording a name in a non-nil counter always returns a counter; every other
entry is unchanged; when the name is a key whose count is a Go `int` below the maximum, exactly
that entry grows by 1; when the name is not a key, it is added with count 1, so the key set of
the returned counter is the old key set together with the name. Both decoders record a
resolved name this way. -/
theorem C9_recording_increments_or_inserts (m : Counter) (name : String) :
    ∃ m' : Counter, increment (some m) name = .ok (some m') ∧
      (∀ k, k ≠ name → m' k = m k) ∧
      (∀ v : Int, m name = some v → -2 ^ 63 ≤ v → v < 2 ^ 63 - 1 → m' name = some (v + 1)) ∧
      (m name = none → m' name = some 1) ∧
      (∀ k, (m' k).isSome ↔ ((m k).isSome ∨ k = name)) ∧
      (∀ (contractABI : ABI) (data : List Byte) (method : Method), 4 ≤ data.length →
        contractABI.MethodById (data.take 4) = some method → method.Name = name →
        DecodeTransactionInputData contractABI data (some m) = .ok (some m')) ∧
      (∀ (contractABI : ABI) (status : Nat) (topic : Hash) (ts : List Hash) (event : Event),
        contractABI.EventByID topic = some event → event.Name = name →
        DecodeTransactionLogs ⟨status, [⟨topic :: ts⟩]⟩ contractABI (some m)
          = .ok (some m')) := by
  refine ⟨m.incr name, rfl, ?_, ?_, ?_, ?_, ?_, ?_⟩
  · intro k hk
    simp [Counter.incr, hk]
  · intro v hv h1 h2
    simp only [Counter.incr, hv, if_true, Option.getD_some]
    rw [wrapInt_of_range _ (by omega) (by omega)]
  · intro hn
    simp [Counter.incr, hn, wrapInt]
  · intro k
    by_cases hk : k = name
    · simp [Counter.incr, hk]
    · simp [Counter.incr, hk]
  · intro contractABI data method hlen hm hname
    rw [DecodeTransactionInputData_resolved contractABI data (some m) method hlen hm, hname]
    rfl
  · intro contractABI status topic ts event hev hname
    simp [DecodeTransactionLogs, DecodeTransactionLogs.loop, hev, increment, hname]

/-! ## C10: order of processing -/

/-- C10: for every counter and every two sequences of fetched transactions that are
permutations of each other, each call on the contract resolving to a method of the ABI, the
loop of `GetAllFunctionCalls` ends the same way on both; when every transaction has a
recipient both return the same counter; and folding `DecodeTransactionInputData` over the call
data of two such permuted sequences of calls returns the same counter. -/
theorem C10_order_does_not_change_totals (client : Client) (myABI : ABI) (addr : String)
    (m : Counter) (hs1 hs2 : List Hash) (hperm : hs1.Perm hs2)
    (hfetch : ∀ h ∈ hs1, ∃ tx, client.TransactionByHash h = some tx)
    (hres : ∀ h ∈ hs1, resolves client myABI addr h) :
    GetAllFunctionCalls.loop client myABI addr hs1 (some m)
      = GetAllFunctionCalls.loop client myABI addr hs2 (some m) ∧
    (hs1.all (hasRecipient client) = true →
      ∃ m' : Counter, GetAllFunctionCalls.loop client myABI addr hs1 (some m) = .ok (some m') ∧
        GetAllFunctionCalls.loop client myABI addr hs2 (some m) = .ok (some m')) ∧
    (∀ txs1 txs2 : List Transaction, txs1.Perm txs2 →
      (∀ tx ∈ txs1, 4 ≤ tx.Data.length ∧
        ∃ method, myABI.MethodById (tx.Data.take 4) = some method) →
      ∃ m' : Counter, foldDecode myABI txs1 (some m) = .ok (some m') ∧
        foldDecode myABI txs2 (some m) = .ok (some m')) := by
  have hfetch2 : ∀ h ∈ hs2, ∃ tx, client.TransactionByHash h = some tx :=
    fun h hh => hfetch h (hperm.mem_iff.mpr hh)
  have hres2 : ∀ h ∈ hs2, resolves client myABI addr h :=
    fun h hh => hres h (hperm.mem_iff.mpr hh)
  have hnames : calledNames client myABI addr hs1 = _ := rfl
  have e1 := loop_functionCalls client myABI addr hs1 m hfetch hres
  have e2 := loop_functionCalls client myABI addr hs2 m hfetch2 hres2
  have hfold : (calledNames client myABI addr hs1).foldl Counter.incr m
      = (calledNames client myABI addr hs2).foldl Counter.incr m :=
    foldl_incr_perm _ _ (hperm.filterMap _) m
  rw [← all_hasRecipient_perm client hs1 hs2 hperm, ← hfold] at e2
  refine ⟨e1.trans e2.symm, ?_, ?_⟩
  · intro hall
    rw [hall] at e1 e2
    exact ⟨_, e1, e2⟩
  · intro txs1 txs2 hp hr
    have hr2 : ∀ tx ∈ txs2, 4 ≤ tx.Data.length ∧
        ∃ method, myABI.MethodById (tx.Data.take 4) = some method :=
      fun tx ht => hr tx (hp.mem_iff.mpr ht)
    refine ⟨_, foldDecode_resolved myABI txs1 m hr, ?_⟩
    rw [foldDecode_resolved myABI txs2 m hr2]
    congr 2
    exact (foldl_incr_perm _ _ (hp.filterMap _) m).symm

/-- C10, witness: the block 1, 2, 3 of `node` and its reverse. -/
theorem C10_order_does_not_change_totals_witness :
    GetAllFunctionCalls.loop node erc20 mainAddressHex [1, 2, 3] (some erc20Seed)
      = GetAllFunctionCalls.loop node erc20 mainAddressHex [3, 2, 1] (some erc20Seed) :=
  (C10_order_does_not_change_totals node erc20 mainAddressHex erc20Seed [1, 2, 3] [3, 2, 1]
    (List.reverse_perm [3, 2, 1]) node_fetches node_resolves).1

/-! ## The blacklist scan in closed form -/

/-- The scan passes over a run of unmatched transactions. -/
theorem scan_skips_unmatched (client : Client) (blacklist : List BlacklistAddress)
    (pre rest : List Hash) (hpre : ∀ x ∈ pre, unmatched client blacklist x) :
    CheckSmartcontractTxAddresses.loop client blacklist (pre ++ rest)
      = CheckSmartcontractTxAddresses.loop client blacklist rest := by
  induction pre with
  | nil => rfl
  | cons h tl ih =>
    obtain ⟨tx, sender, h1, h2, h3⟩ := hpre h (List.mem_cons_self _ _)
    simp only [List.cons_append, CheckSmartcontractTxAddresses.loop, h1, h2, h3]
    exact ih (fun x hx => hpre x (List.mem_cons_of_mem _ hx))

/-- The scan ends in one of three ways, each with the place in the block that decides it. -/
theorem scan_outcome (client : Client) (blacklist : List BlacklistAddress) (hs : List Hash) :
    (CheckSmartcontractTxAddresses.loop client blacklist hs = .ok none ∧
      ∀ x ∈ hs, unmatched client blacklist x) ∨
    (∃ pre h post tx sender, hs = pre ++ h :: post ∧
      (∀ x ∈ pre, unmatched client blacklist x) ∧
      client.TransactionByHash h = some tx ∧ getTxSender tx = some sender ∧
      onBlacklist blacklist sender = true ∧
      CheckSmartcontractTxAddresses.loop client blacklist hs = .ok (some h)) ∨
    (∃ pre h post, hs = pre ++ h :: post ∧
      (∀ x ∈ pre, unmatched client blacklist x) ∧
      (client.TransactionByHash h = none ∨
        ∃ tx, client.TransactionByHash h = some tx ∧ getTxSender tx = none) ∧
      CheckSmartcontractTxAddresses.loop client blacklist hs = .error .fatal) := by
  induction hs with
  | nil => exact Or.inl ⟨rfl, by simp⟩
  | cons h tl ih =>
    cases hf : client.TransactionByHash h with
    | none =>
      refine Or.inr (Or.inr ⟨[], h, tl, rfl, by simp, Or.inl hf, ?_⟩)
      simp [CheckSmartcontractTxAddresses.loop, hf]
    | some tx =>
      cases hsnd : getTxSender tx with
      | none =>
        refine Or.inr (Or.inr ⟨[], h, tl, rfl, by simp, Or.inr ⟨tx, hf, hsnd⟩, ?_⟩)
        simp [CheckSmartcontractTxAddresses.loop, hf, hsnd]
      | some sender =>
        cases hb : onBlacklist blacklist sender with
        | true =>
          refine Or.inr (Or.inl ⟨[], h, tl, tx, sender, rfl, by simp, hf, hsnd, hb, ?_⟩)
          simp [CheckSmartcontractTxAddresses.loop, hf, hsnd, hb]
        | false =>
          have hu : unmatched client blacklist h := ⟨tx, sender, hf, hsnd, hb⟩
          have hstep : CheckSmartcontractTxAddresses.loop client blacklist (h :: tl)
              = CheckSmartcontractTxAddresses.loop client blacklist tl := by
            simp [CheckSmartcontractTxAddresses.loop, hf, hsnd, hb]
          have hcons : ∀ pre : List Hash, (∀ x ∈ pre, unmatched client blacklist x) →
              ∀ x ∈ h :: pre, unmatched client blacklist x := by
            intro pre hp x hx
            rcases List.mem_cons.mp hx with rfl | hx
            · exact hu
            · exact hp x hx
          rcases ih with ⟨h1, h2⟩ | ⟨pre, g, post, tx2, s2, e, hp, a, b, c, d⟩ |
            ⟨pre, g, post, e, hp, a, d⟩
          · exact Or.inl ⟨hstep.trans h1, hcons tl h2⟩
          · exact Or.inr (Or.inl ⟨h :: pre, g, post, tx2, s2, by simp [e], hcons pre hp, a, b, c,
              hstep.trans d⟩)
          · exact Or.inr (Or.inr ⟨h :: pre, g, post, by simp [e], hcons pre hp, a,
              hstep.trans d⟩)

/-! ## C11: one alert per batch -/

/-- C11, counterexample: in the block 8, 1 of `nodeOtherChain` the sender of transaction 1 is on
the blacklist, but the sender of transaction 8 before it cannot be recovered; the scan ends in
`log.Fatal` there and emits no alert. -/
theorem C11_unrecoverable_sender_ends_the_scan :
    getTxSender txOtherChain = none ∧
    (∃ sender, getTxSender txTransfer = some sender ∧
      onBlacklist [⟨aliceHex, "", ""⟩] sender = true) ∧
    CheckSmartcontractTxAddresses.loop nodeOtherChain [⟨aliceHex, "", ""⟩] [8, 1]
      = .error .fatal := by
  refine ⟨rfl, ⟨aliceAddress, rfl, ?_⟩, ?_⟩
  · simp [onBlacklist, Hex_aliceAddress]
  · have h8 : nodeOtherChain.TransactionByHash 8 = some txOtherChain := rfl
    simp [CheckSmartcontractTxAddresses.loop, h8, getTxSender, txOtherChain]

/-- C11, as amended: for every block and blacklist the scan of `CheckSmartcontractTxAddresses`
ends in exactly one of three ways, with at most one alert. If some transaction's recovered
sender is on the blacklist (its `Hex()` is an entry's address string) and every transaction
before the first such one is fetched with a recovered sender on no entry, the single alert is
for that first transaction, whatever follows it in the block: nothing after it is examined.
Every alert arises this way. The scan returns without an alert exactly when every transaction
is fetched with a recovered sender on no entry. When a transaction that cannot be fetched, or
whose sender cannot be recovered, comes before any match, the run ends in `log.Fatal` with no
alert. -/
theorem C11_scan_stops_at_first_match (client : Client) (blacklist : List BlacklistAddress)
    (hs : List Hash) :
    (CheckSmartcontractTxAddresses.loop client blacklist hs = .ok none ∨
      (∃ h, CheckSmartcontractTxAddresses.loop client blacklist hs = .ok (some h)) ∨
      CheckSmartcontractTxAddresses.loop client blacklist hs = .error .fatal) ∧
    (∀ (pre post : List Hash) (h : Hash) (tx : Transaction) (sender : Address),
      hs = pre ++ h :: post → (∀ x ∈ pre, unmatched client blacklist x) →
      client.TransactionByHash h = some tx → getTxSender tx = some sender →
      onBlacklist blacklist sender = true →
      ∀ later : List Hash,
        CheckSmartcontractTxAddresses.loop client blacklist (pre ++ h :: later)
          = .ok (some h)) ∧
    (∀ h, CheckSmartcontractTxAddresses.loop client blacklist hs = .ok (some h) →
      ∃ pre post tx sender, hs = pre ++ h :: post ∧
        (∀ x ∈ pre, unmatched client blacklist x) ∧
        client.TransactionByHash h = some tx ∧ getTxSender tx = some sender ∧
        onBlacklist blacklist sender = true) ∧
    (CheckSmartcontractTxAddresses.loop client blacklist hs = .ok none ↔
      ∀ x ∈ hs, unmatched client blacklist x) ∧
    (∀ (pre post : List Hash) (h : Hash), hs = pre ++ h :: post →
      (∀ x ∈ pre, unmatched client blacklist x) →
      (client.TransactionByHash h = none ∨
        ∃ tx, client.TransactionByHash h = some tx ∧ getTxSender tx = none) →
      CheckSmartcontractTxAddresses.loop client blacklist hs = .error .fatal) := by
  refine ⟨?_, ?_, ?_, ?_, ?_⟩
  · rcases scan_outcome client blacklist hs with ⟨h1, _⟩ | ⟨_, g, _, _, _, _, _, _, _, _, d⟩ |
      ⟨_, _, _, _, _, _, d⟩
    · exact Or.inl h1
    · exact Or.inr (Or.inl ⟨g, d⟩)
    · exact Or.inr (Or.inr d)
  · intro pre post h tx sender _ hp hf hsnd hb later
    rw [scan_skips_unmatched client blacklist pre (h :: later) hp]
    simp [CheckSmartcontractTxAddresses.loop, hf, hsnd, hb]
  · intro h hres
    rcases scan_outcome client blacklist hs with ⟨h1, _⟩ |
      ⟨pre, g, post, tx, sender, e, hp, a, b, c, d⟩ | ⟨_, _, _, _, _, _, d⟩
    · rw [h1] at hres; simp at hres
    · rw [d] at hres
      have hg : g = h := by simpa using hres
      subst hg
      exact ⟨pre, post, tx, sender, e, hp, a, b, c⟩
    · rw [d] at hres; simp at hres
  · constructor
    · intro hres
      rcases scan_outcome client blacklist hs with ⟨_, h2⟩ |
        ⟨_, _, _, _, _, _, _, _, _, _, d⟩ | ⟨_, _, _, _, _, _, d⟩
      · exact h2
      · rw [d] at hres; simp at hres
      · rw [d] at hres; simp at hres
    · intro hall
      have := scan_skips_unmatched client blacklist hs [] hall
      rw [List.append_nil] at this
      rw [this]
      rfl
  · intro pre post h e hp hbad
    rw [e, scan_skips_unmatched client blacklist pre (h :: post) hp]
    rcases hbad with hf | ⟨tx, hf, hsnd⟩
    · simp [CheckSmartcontractTxAddresses.loop, hf]
    · simp [CheckSmartcontractTxAddresses.loop, hf, hsnd]

/-- C11, witness: in the block 2, 1, 8, 3 of `nodeOtherChain` with `aliceAddress` blacklisted
the alert is for transaction 1; transaction 8 after it, whose sender cannot be recovered, is
never examined. -/
theorem C11_scan_stops_at_first_match_witness :
    CheckSmartcontractTxAddresses.loop nodeOtherChain [⟨aliceHex, "", ""⟩] [2, 1, 8, 3]
      = .ok (some 1) := by
  have hne : bobAddress.Hex ≠ aliceHex := by
    rw [Hex_bobAddress]; decide
  refine (C11_scan_stops_at_first_match nodeOtherChain [⟨aliceHex, "", ""⟩] [2, 1, 3]).2.1
    [2] [3] 1 txTransfer aliceAddress rfl ?_ rfl rfl ?_ [8, 3]
  · intro x hx
    simp only [List.mem_singleton] at hx
    subst hx
    exact ⟨txApprove, bobAddress, rfl, rfl, by simp [onBlacklist, hne]⟩
  · simp [onBlacklist, Hex_aliceAddress]

end BlockchainAlert
